import Mathlib

/-!
Verification of the retrieval subsystem of the Amma IntelliFlow repository:
`backend/rag/embed.py` (tagging, embedding, vector-store add, registry
extend) and `backend/rag/retrieve.py` (empty-store sentinel, k-nearest
neighbour search, defensive registry lookup, newline join).

Embedding vectors are idealised as lists over an arbitrary linearly
ordered commutative ring `R` (the source stores 32-bit floats; every claim
here is about ordering and structure, not float rounding, so the scalar
type is kept abstract and concrete witnesses instantiate it at `ℤ`).
The sentence-transformer model is abstracted as a fallible encoding
function `String → Option (Vec R)`, where `none` models the model raising
on that input.  The faiss `IndexFlatL2` index is an external library; its
`add`/`search` behaviour is modelled from the spec (§4.2): brute-force L2
nearest-neighbour search, nearest first, ties broken by insertion order,
and `add` rejecting any batch holding a vector of the wrong dimension.
-/

set_option linter.unusedSectionVars false

namespace RAG

variable {R : Type*} [LinearOrderedCommRing R]

/-- Embedding dimension, `EMBEDDING_DIM = 384` in `embed.py`. -/
def EMBEDDING_DIM : Nat := 384

/-- An embedding vector: an ordered sequence of (idealised) floats. -/
abbrev Vec (R : Type*) := List R

/-- Squared Euclidean (L2) distance between two vectors. -/
def sqDist (u v : Vec R) : R :=
  (List.zipWith (fun a b => (a - b) ^ 2) u v).sum

/-- Modelled from the spec: the Vector Store (faiss `IndexFlatL2` in the
source, an external library) is a flat, append-only list of vectors. -/
structure VectorStore (R : Type*) where
  vecs : List (Vec R)
deriving DecidableEq

/-- Number of stored vectors (faiss `index.ntotal`). -/
def VectorStore.ntotal (s : VectorStore R) : Nat := s.vecs.length

/-- Modelled from the spec: `add(vectors)` appends an ordered batch of
fixed-dimension vectors; it fails (whole batch rejected, store unchanged)
if any vector has dimension different from 384. -/
def VectorStore.add (s : VectorStore R) (vs : List (Vec R)) :
    Option (VectorStore R) :=
  if vs.all (fun v => v.length == EMBEDDING_DIM) then
    some ⟨s.vecs ++ vs⟩
  else
    none

/-- Squared distance from the query to the stored vector at position `i`. -/
def distOf (s : VectorStore R) (q : Vec R) (i : Nat) : R :=
  sqDist q (s.vecs.getD i [])

/-- Comparison used by the search: lexicographic on (distance, index), so
ties in distance are broken in favour of the lower (earlier-inserted)
index. -/
def distRel (s : VectorStore R) (q : Vec R) (i j : Nat) : Prop :=
  distOf s q i < distOf s q j ∨ (distOf s q i = distOf s q j ∧ i ≤ j)

instance (s : VectorStore R) (q : Vec R) : DecidableRel (distRel s q) :=
  fun i j =>
    inferInstanceAs
      (Decidable (distOf s q i < distOf s q j ∨ (distOf s q i = distOf s q j ∧ i ≤ j)))

instance (s : VectorStore R) (q : Vec R) : IsTotal Nat (distRel s q) :=
  ⟨fun i j => by
    rcases lt_trichotomy (distOf s q i) (distOf s q j) with h | h | h
    · exact Or.inl (Or.inl h)
    · rcases Nat.le_total i j with h' | h'
      · exact Or.inl (Or.inr ⟨h, h'⟩)
      · exact Or.inr (Or.inr ⟨h.symm, h'⟩)
    · exact Or.inr (Or.inl h)⟩

instance (s : VectorStore R) (q : Vec R) : IsTrans Nat (distRel s q) :=
  ⟨fun i j l hij hjl => by
    rcases hij with h₁ | ⟨h₁, h₁'⟩ <;> rcases hjl with h₂ | ⟨h₂, h₂'⟩
    · exact Or.inl (h₁.trans h₂)
    · exact Or.inl (lt_of_lt_of_eq h₁ h₂)
    · exact Or.inl (lt_of_eq_of_lt h₁ h₂)
    · exact Or.inr ⟨h₁.trans h₂, h₁'.trans h₂'⟩⟩

/-- Modelled from the spec: `search(query_vector, k)` returns the indices
of the `k` stored vectors with smallest L2 distance to the query, nearest
first, ties broken by insertion order (lower index wins); if `k` exceeds
the number of stored vectors it returns all of them. -/
def VectorStore.search (s : VectorStore R) (q : Vec R) (k : Nat) : List Nat :=
  (List.insertionSort (distRel s q) (List.range s.ntotal)).take k

/-- The mutable module state of `embed.py`: the faiss index (`_index`) and
the Document Registry (`_documents`), passed explicitly instead of being
module-level globals. -/
structure RAGState (R : Type*) where
  index : VectorStore R
  documents : List String
deriving DecidableEq

/-- The `texts` argument of `embed_texts` may be a single string or a list
of strings (`texts (str | list[str])`). -/
inductive Texts
  | str : String → Texts
  | list : List String → Texts

/-- The `isinstance(texts, str)` normalisation at the top of `embed_texts`:
a single string becomes the one-element list. -/
def Texts.toList : Texts → List String
  | .str s => [s]
  | .list l => l

/-- The embedding model, abstracted: `none` models the underlying model
raising on that input. -/
abbrev EncFun (R : Type*) := String → Option (Vec R)

/-- Batch encoding, `model.encode(tagged_texts)`: one vector per input, in
input order; if the model fails on any input the whole batch fails. -/
def encodeBatch (enc : EncFun R) : List String → Option (List (Vec R))
  | [] => some []
  | t :: ts =>
    match enc t, encodeBatch enc ts with
    | some v, some vs => some (v :: vs)
    | _, _ => none

/-- Tagging of one text, the f-string `f"[{tag}] {t}"` in `embed_texts`. -/
def tagText (tag t : String) : String := "[" ++ tag ++ "] " ++ t

/-- The write path `embed_texts(texts, tag="GENERAL")` of `embed.py`:
normalise `texts` to a list, prepend the bracketed tag to each string,
encode the tagged batch, `index.add` the embeddings, and extend the
Document Registry with the tagged texts.  Returns the embeddings (or
`none` when the model or the add failed) together with the resulting
state; the two mutations occur only after both fallible steps, exactly as
in the source, so a failure leaves the state untouched. -/
def embed_texts (enc : EncFun R) (texts : Texts) (st : RAGState R)
    (tag : String := "GENERAL") : Option (List (Vec R)) × RAGState R :=
  match encodeBatch enc (texts.toList.map (tagText tag)) with
  | none => (none, st)
  | some embeddings =>
    match st.index.add embeddings with
    | none => (none, st)
    | some index' =>
      (some embeddings, ⟨index', st.documents ++ texts.toList.map (tagText tag)⟩)

/-- The sentinel returned by `retrieve_context` on an empty store. -/
def SENTINEL : String := "No indexed report context available."

/-- The defensive lookup loop of `retrieve_context`:
`for idx in indices[0]: if 0 <= idx < len(documents): results.append(...)`.
Out-of-range indices are skipped, never raised. -/
def collectDocs (documents : List String) : List Nat → List String
  | [] => []
  | idx :: rest =>
    if h : idx < documents.length then
      documents.get ⟨idx, h⟩ :: collectDocs documents rest
    else
      collectDocs documents rest

/-- The read path `retrieve_context(query, k=2)` of `retrieve.py`: on an
empty store return the sentinel without consulting the model; otherwise
encode the query (never adding it anywhere), search, map the returned
indices through the registry defensively, and join with newlines.  The
state is returned alongside the result; no branch constructs a new state,
mirroring the source's absence of any write to the index or registry. -/
def retrieve_context (enc : EncFun R) (query : String) (st : RAGState R)
    (k : Nat := 2) : Option String × RAGState R :=
  if st.index.ntotal = 0 then
    (some SENTINEL, st)
  else
    match enc query with
    | none => (none, st)
    | some query_embedding =>
      (some (String.intercalate "\n"
        (collectDocs st.documents (st.index.search query_embedding k))), st)

/-- The registry/store alignment invariant of spec §3:
`len(registry) == number_of_vectors_indexed`. -/
def aligned (st : RAGState R) : Prop :=
  st.documents.length = st.index.ntotal

instance (st : RAGState R) : Decidable (aligned st) :=
  inferInstanceAs (Decidable (st.documents.length = st.index.ntotal))

/-! ### Concrete instances used to exercise the model

The scalar type is instantiated at `ℤ` so that the definitions evaluate
inside the kernel. -/

/-- A model that embeds every string as the all-zero 384-dimensional
vector. -/
def encZero : EncFun ℤ := fun _ => some (List.replicate EMBEDDING_DIM 0)

/-- A model that fails on every input. -/
def encFail : EncFun ℤ := fun _ => none

/-- A model producing vectors of the wrong dimension (1 instead of 384). -/
def encShort : EncFun ℤ := fun _ => some [1]

/-- A model that embeds every string as the 1-dimensional zero vector,
used to query stores of short vectors. -/
def encQ : EncFun ℤ := fun _ => some [0]

/-- The all-zero 384-dimensional vector. -/
def vZero : Vec ℤ := List.replicate EMBEDDING_DIM 0

/-- The initial module state: empty index, empty registry. -/
def emptyState : RAGState ℤ := ⟨⟨[]⟩, []⟩

/-- The state after embedding `["r1", "r2"]` with tag `AUTH` under
`encZero`. -/
def committedState : RAGState ℤ :=
  ⟨⟨[vZero, vZero]⟩, ["[AUTH] r1", "[AUTH] r2"]⟩

/-- A three-vector store in which positions 1 and 2 hold identical vectors,
both strictly closer to the zero query than position 0: exercises the
tie-break. -/
def tieStore : VectorStore ℤ := ⟨[[1], [0], [0]]⟩

/-- A deliberately misaligned state (two vectors, empty registry),
exercising the defensive skip of indices that do not resolve. -/
def misalignedState : RAGState ℤ := ⟨⟨[[0], [1]]⟩, []⟩

/-! ### Basic lemmas about the model -/

/-- A successful batch encoding yields one vector per input. -/
theorem encodeBatch_length {enc : EncFun R} :
    ∀ {ts : List String} {vs : List (Vec R)},
      encodeBatch enc ts = some vs → vs.length = ts.length := by
  intro ts
  induction ts with
  | nil =>
    intro vs h
    simp only [encodeBatch, Option.some.injEq] at h
    simp [← h]
  | cons t ts ih =>
    intro vs h
    simp only [encodeBatch] at h
    cases hE : enc t with
    | none => rw [hE] at h; exact absurd h (by simp)
    | some v =>
      rw [hE] at h
      cases hB : encodeBatch enc ts with
      | none => rw [hB] at h; exact absurd h (by simp)
      | some ws =>
        rw [hB] at h
        simp only [Option.some.injEq] at h
        simp [← h, ih hB]

/-- If the model fails on some input of the batch, the whole batch encoding
fails. -/
theorem encodeBatch_none_of_mem {enc : EncFun R} :
    ∀ {ts : List String}, (∃ t ∈ ts, enc t = none) →
      encodeBatch enc ts = none := by
  intro ts
  induction ts with
  | nil => rintro ⟨t, ht, _⟩; cases ht
  | cons t ts ih =>
    rintro ⟨u, hu, hnone⟩
    rcases List.mem_cons.mp hu with rfl | hu'
    · simp [encodeBatch, hnone]
    · rcases hE : enc t with _ | v
      · simp [encodeBatch, hE]
      · simp [encodeBatch, hE, ih ⟨u, hu', hnone⟩]

/-- A successful `add` appends the batch to the stored vectors. -/
theorem VectorStore.add_some {s : VectorStore R} {vs : List (Vec R)}
    {s' : VectorStore R} (h : s.add vs = some s') :
    s'.vecs = s.vecs ++ vs := by
  unfold VectorStore.add at h
  split at h
  · exact congrArg VectorStore.vecs (Option.some.inj h).symm
  · cases h

/-- `add` rejects any batch holding a vector of the wrong dimension. -/
theorem VectorStore.add_none {s : VectorStore R} {vs : List (Vec R)}
    (h : ¬ ∀ v ∈ vs, v.length = EMBEDDING_DIM) :
    s.add vs = none := by
  unfold VectorStore.add
  rw [if_neg]
  simpa using h

/-- Every `embed_texts` call either commits fully (embedding succeeded and
the add was accepted, both structures extended) or fails with the state
untouched. -/
theorem embed_texts_shape (enc : EncFun R) (texts : Texts) (st : RAGState R)
    (tag : String) :
    (∃ embs index',
      encodeBatch enc (texts.toList.map (tagText tag)) = some embs ∧
      st.index.add embs = some index' ∧
      embed_texts enc texts st tag =
        (some embs, ⟨index', st.documents ++ texts.toList.map (tagText tag)⟩)) ∨
    embed_texts enc texts st tag = (none, st) := by
  unfold embed_texts
  split
  · exact Or.inr rfl
  · split
    · exact Or.inr rfl
    · rename_i embs hE hs index' hA
      exact Or.inl ⟨embs, index', hE, hA, rfl⟩

/-- Characterisation of a successful `embed_texts` call: the returned
embeddings are the encodings of the tagged texts, the Vector Store got
exactly those vectors appended, and the Document Registry got exactly the
tagged texts appended. -/
theorem embed_texts_some {enc : EncFun R} {texts : Texts} {st : RAGState R}
    {tag : String} {embs : List (Vec R)} {st' : RAGState R}
    (h : embed_texts enc texts st tag = (some embs, st')) :
    encodeBatch enc (texts.toList.map (tagText tag)) = some embs ∧
    st'.index.vecs = st.index.vecs ++ embs ∧
    st'.documents = st.documents ++ texts.toList.map (tagText tag) := by
  rcases embed_texts_shape enc texts st tag with ⟨es, index', hE, hA, heq⟩ | heq
  · rw [heq] at h
    simp only [Prod.mk.injEq, Option.some.injEq] at h
    obtain ⟨rfl, rfl⟩ := h
    exact ⟨hE, VectorStore.add_some hA, rfl⟩
  · rw [heq] at h
    simp at h

/-- A failed `embed_texts` call leaves the state exactly as it was. -/
theorem embed_texts_none {enc : EncFun R} {texts : Texts} {st : RAGState R}
    {tag : String} (h : (embed_texts enc texts st tag).1 = none) :
    embed_texts enc texts st tag = (none, st) := by
  rcases embed_texts_shape enc texts st tag with ⟨es, index', hE, hA, heq⟩ | heq
  · rw [heq] at h; simp at h
  · exact heq

/-- The search result is a sublist of the full sorted index list. -/
theorem VectorStore.search_sublist (s : VectorStore R) (q : Vec R) (k : Nat) :
    List.Sublist (s.search q k)
      (List.insertionSort (distRel s q) (List.range s.ntotal)) :=
  List.take_sublist _ _

/-- Search returns `min k ntotal` indices. -/
theorem VectorStore.search_length (s : VectorStore R) (q : Vec R) (k : Nat) :
    (s.search q k).length = min k s.ntotal := by
  unfold VectorStore.search
  simp

/-- Search never returns a duplicate index. -/
theorem VectorStore.search_nodup (s : VectorStore R) (q : Vec R) (k : Nat) :
    (s.search q k).Nodup :=
  (s.search_sublist q k).nodup
    ((List.perm_insertionSort (distRel s q) (List.range s.ntotal)).symm.nodup
      (List.nodup_range _))

/-- Every index returned by search is the position of a stored vector. -/
theorem VectorStore.search_mem_lt (s : VectorStore R) (q : Vec R) (k : Nat) :
    ∀ i ∈ s.search q k, i < s.ntotal := by
  intro i hi
  have h₁ : i ∈ List.insertionSort (distRel s q) (List.range s.ntotal) :=
    (s.search_sublist q k).subset hi
  exact List.mem_range.mp ((List.mem_insertionSort (distRel s q)).mp h₁)

/-- Search output is sorted under the lexicographic (distance, index)
comparison. -/
theorem VectorStore.search_pairwise (s : VectorStore R) (q : Vec R) (k : Nat) :
    (s.search q k).Pairwise (distRel s q) :=
  List.Pairwise.sublist (s.search_sublist q k)
    (List.sorted_insertionSort (distRel s q) (List.range s.ntotal))

/-- Search output is sorted by strictly increasing (distance, index) pairs:
non-decreasing distance, and among equal distances the earlier-inserted
index comes first. -/
theorem VectorStore.search_pairwise_strict (s : VectorStore R) (q : Vec R)
    (k : Nat) :
    (s.search q k).Pairwise (fun i j =>
      distOf s q i < distOf s q j ∨ (distOf s q i = distOf s q j ∧ i < j)) := by
  have h₁ := s.search_pairwise q k
  have h₂ : (s.search q k).Pairwise (· ≠ ·) := s.search_nodup q k
  refine (h₁.and h₂).imp ?_
  rintro a b ⟨hab | ⟨hd, hle⟩, hne⟩
  · exact Or.inl hab
  · exact Or.inr ⟨hd, lt_of_le_of_ne hle hne⟩

/-- With `k` at least the number of stored vectors, search returns the whole
sorted index list. -/
theorem VectorStore.search_of_le (s : VectorStore R) (q : Vec R) (k : Nat)
    (hk : s.ntotal ≤ k) :
    s.search q k = List.insertionSort (distRel s q) (List.range s.ntotal) := by
  unfold VectorStore.search
  exact List.take_of_length_le (by simpa using hk)

/-- The second component of `retrieve_context` is always the input state. -/
theorem retrieve_context_snd (enc : EncFun R) (q : String) (st : RAGState R)
    (k : Nat) :
    (retrieve_context enc q st k).2 = st := by
  unfold retrieve_context
  split
  · rfl
  · split <;> rfl

/-- The defensive lookup loop is exactly a `filterMap` through the
registry's optional indexing. -/
theorem collectDocs_eq_filterMap (documents : List String) :
    ∀ l : List Nat,
      collectDocs documents l = l.filterMap (fun i => documents[i]?) := by
  intro l
  induction l with
  | nil => rfl
  | cons idx rest ih =>
    by_cases h : idx < documents.length
    · simp [collectDocs, h, ih, List.filterMap_cons,
        List.getElem?_eq_getElem h, List.get_eq_getElem]
    · simp [collectDocs, h, ih, List.filterMap_cons,
        List.getElem?_eq_none (le_of_not_lt h)]

/-! ### The claims -/

/-- C1: for every non-empty ordered sequence of input strings and every tag,
`embed_texts` appends exactly one entry per input string to the Document
Registry, each equal to the tagged original string, in input order, and
appends the corresponding vectors (the encodings of the tagged texts, one
per input, in the same order) to the Vector Store. -/
theorem embed_texts_appends_in_order (enc : EncFun R) (ts : List String)
    (tag : String) (st : RAGState R) (embs : List (Vec R)) (st' : RAGState R)
    (hne : ts ≠ [])
    (h : embed_texts enc (.list ts) st tag = (some embs, st')) :
    st'.documents = st.documents ++ ts.map (tagText tag) ∧
    st'.documents.length = st.documents.length + ts.length ∧
    encodeBatch enc (ts.map (tagText tag)) = some embs ∧
    st'.index.vecs = st.index.vecs ++ embs ∧
    embs.length = ts.length := by
  obtain ⟨hE, hV, hD⟩ := embed_texts_some h
  refine ⟨hD, ?_, hE, hV, ?_⟩
  · rw [hD]; simp [Texts.toList]
  · have := encodeBatch_length hE
    simpa [Texts.toList] using this

/-- C2: the alignment invariant `len(registry) = number of vectors` is
preserved by `embed_texts` and by `retrieve_context`, and both structures
are append-only and positionally stable: existing entries are never
removed, reordered or overwritten. -/
theorem alignment_invariant_preserved (enc encq : EncFun R) (texts : Texts)
    (tag q : String) (k : Nat) (st : RAGState R) (h : aligned st) :
    (aligned (embed_texts enc texts st tag).2 ∧
     (∃ newDocs,
       (embed_texts enc texts st tag).2.documents = st.documents ++ newDocs) ∧
     (∃ newVecs,
       (embed_texts enc texts st tag).2.index.vecs = st.index.vecs ++ newVecs) ∧
     (∀ i, i < st.documents.length →
       (embed_texts enc texts st tag).2.documents[i]? = st.documents[i]?) ∧
     (∀ i, i < st.index.vecs.length →
       (embed_texts enc texts st tag).2.index.vecs[i]? = st.index.vecs[i]?)) ∧
    (retrieve_context encq q st k).2 = st := by
  constructor
  · rcases embed_texts_shape enc texts st tag with
      ⟨embs, index', hE, hA, heq⟩ | heq
    · rw [heq]
      have hlen := encodeBatch_length hE
      have hvecs : index'.vecs = st.index.vecs ++ embs :=
        VectorStore.add_some hA
      refine ⟨?_, ⟨_, rfl⟩, ⟨_, hvecs⟩, ?_, ?_⟩
      · unfold aligned VectorStore.ntotal at h ⊢
        simp only [List.length_append, hvecs, List.length_map] at *
        omega
      · intro i hi
        exact List.getElem?_append_left hi
      · intro i hi
        show index'.vecs[i]? = _
        rw [hvecs]
        exact List.getElem?_append_left hi
    · rw [heq]
      exact ⟨h, ⟨[], by simp⟩, ⟨[], by simp⟩, fun i _ => rfl, fun i _ => rfl⟩
  · exact retrieve_context_snd encq q st k

/-- C3: `embed_texts` is atomic on failure: if the model fails on any input
of the batch, or any produced vector has dimension other than 384 so the
add is rejected, the whole call fails and the state (Vector Store and
Document Registry) is exactly what it was before the call. -/
theorem embed_texts_atomic_on_failure (enc : EncFun R) (texts : Texts)
    (tag : String) (st : RAGState R)
    (h : (∃ t ∈ texts.toList.map (tagText tag), enc t = none) ∨
         ∃ embs, encodeBatch enc (texts.toList.map (tagText tag)) = some embs ∧
           ¬ ∀ v ∈ embs, v.length = EMBEDDING_DIM) :
    embed_texts enc texts st tag = (none, st) := by
  rcases embed_texts_shape enc texts st tag with
    ⟨embs, index', hE, hA, heq⟩ | heq
  · exfalso
    rcases h with hfail | ⟨embs', hE', hdim⟩
    · rw [encodeBatch_none_of_mem hfail] at hE; cases hE
    · rw [hE] at hE'
      obtain rfl := Option.some.inj hE'
      rw [VectorStore.add_none hdim] at hA; cases hA
  · exact heq

/-- C4: on an empty Vector Store, `retrieve_context` returns the fixed
"no context available" sentinel and leaves the state unchanged, for every
model, query and `k` — in particular also for a model that fails on every
input, so the embedding model is never invoked. -/
theorem retrieve_context_empty_store (st : RAGState R)
    (h : st.index.ntotal = 0) :
    ∀ (enc : EncFun R) (q : String) (k : Nat),
      retrieve_context enc q st k = (some SENTINEL, st) := by
  intro enc q k
  unfold retrieve_context
  rw [if_pos h]

/-- C5: with `k ≤ N` vectors stored, search returns exactly `k` distinct
indices, all positions of stored vectors, ordered by non-decreasing L2
distance to the query with ties broken in favour of the lower
(earlier-inserted) index. -/
theorem search_topk_spec (s : VectorStore R) (q : Vec R) (k : Nat)
    (hk : k ≤ s.ntotal) :
    (s.search q k).length = k ∧
    (s.search q k).Nodup ∧
    (∀ i ∈ s.search q k, i < s.ntotal) ∧
    (s.search q k).Pairwise (fun i j =>
      distOf s q i < distOf s q j ∨ (distOf s q i = distOf s q j ∧ i < j)) :=
  ⟨by rw [s.search_length q k]; exact Nat.min_eq_left hk,
   s.search_nodup q k, s.search_mem_lt q k, s.search_pairwise_strict q k⟩

/-- C6: with `k` strictly greater than the number `N > 0` of stored
vectors, search returns all `N` stored indices and nothing else, in
nearest-first order. -/
theorem search_k_exceeds_count (s : VectorStore R) (q : Vec R) (k : Nat)
    (hN : 0 < s.ntotal) (hk : s.ntotal < k) :
    (s.search q k).length = s.ntotal ∧
    (∀ i, i ∈ s.search q k ↔ i < s.ntotal) ∧
    (s.search q k).Pairwise (fun i j =>
      distOf s q i < distOf s q j ∨ (distOf s q i = distOf s q j ∧ i < j)) := by
  refine ⟨?_, ?_, s.search_pairwise_strict q k⟩
  · rw [s.search_length q k]; exact Nat.min_eq_right hk.le
  · intro i
    rw [s.search_of_le q k hk.le]
    simp

/-- C7: the read path never mutates state: `retrieve_context` returns the
store and registry exactly as they were, and a second call on the
resulting state returns an identical result. -/
theorem retrieve_context_read_only (enc : EncFun R) (q : String)
    (st : RAGState R) (k : Nat) :
    (retrieve_context enc q st k).2 = st ∧
    retrieve_context enc q ((retrieve_context enc q st k).2) k =
      retrieve_context enc q st k := by
  refine ⟨retrieve_context_snd enc q st k, ?_⟩
  rw [retrieve_context_snd enc q st k]

/-- C8: on a non-empty store (with the model succeeding on the query, as
spec §6 assumes), `retrieve_context` returns normally: every index from
search that is not a valid registry position is skipped, and the result is
the newline-joined concatenation of the registry texts at the remaining
valid indices in nearest-first order — possibly the empty string, with the
state untouched. -/
theorem retrieve_context_nonempty_defensive (enc : EncFun R) (q : String)
    (st : RAGState R) (k : Nat) (qv : Vec R)
    (h : st.index.ntotal ≠ 0) (hq : enc q = some qv) :
    retrieve_context enc q st k =
      (some (String.intercalate "\n"
        ((st.index.search qv k).filterMap (fun i => st.documents[i]?))), st) := by
  unfold retrieve_context
  rw [if_neg h, hq]
  show (some (String.intercalate "\n"
    (collectDocs st.documents (st.index.search qv k))), st) = _
  rw [collectDocs_eq_filterMap]

/-- C9: called without an explicit tag, `embed_texts` uses exactly the tag
`"GENERAL"`: the call equals the call with tag `"GENERAL"`, and every
registry entry it creates is the original string prefixed with
`"[GENERAL] "`. -/
theorem embed_texts_default_tag_general (enc : EncFun R) (texts : Texts)
    (st : RAGState R) (embs : List (Vec R)) (st' : RAGState R)
    (h : embed_texts enc texts st = (some embs, st')) :
    embed_texts enc texts st = embed_texts enc texts st "GENERAL" ∧
    st'.documents =
      st.documents ++ texts.toList.map (fun t => "[GENERAL] " ++ t) := by
  refine ⟨rfl, ?_⟩
  obtain ⟨-, -, hD⟩ := embed_texts_some h
  exact hD

/-- C10: passing a single string to `embed_texts` is the same operation as
passing the one-element list holding it: same returned embeddings, same
resulting Vector Store and Document Registry. -/
theorem embed_texts_single_string_eq_singleton (enc : EncFun R) (s : String)
    (st : RAGState R) (tag : String) :
    embed_texts enc (.str s) st tag = embed_texts enc (.list [s]) st tag := rfl

/-! ### Witnesses: the theorems above applied at concrete inputs -/

set_option maxRecDepth 100000

/-- Witness for C1: embedding `["r1", "r2"]` with tag `AUTH` into the empty
state appends exactly the two tagged entries and the two vectors, in
order. -/
theorem embed_texts_appends_in_order_witness :
    (["r1", "r2"] : List String) ≠ [] ∧
    embed_texts encZero (.list ["r1", "r2"]) emptyState "AUTH" =
      (some [vZero, vZero], committedState) ∧
    (committedState.documents =
       emptyState.documents ++ ["r1", "r2"].map (tagText "AUTH") ∧
     committedState.documents.length =
       emptyState.documents.length + (["r1", "r2"] : List String).length ∧
     encodeBatch encZero (["r1", "r2"].map (tagText "AUTH")) =
       some [vZero, vZero] ∧
     committedState.index.vecs = emptyState.index.vecs ++ [vZero, vZero] ∧
     ([vZero, vZero] : List (Vec ℤ)).length =
       (["r1", "r2"] : List String).length) :=
  ⟨by decide, by decide,
   embed_texts_appends_in_order encZero ["r1", "r2"] "AUTH" emptyState
     [vZero, vZero] committedState (by decide) (by decide)⟩

/-- Witness for C2: the alignment invariant holds on the empty state and is
preserved by a concrete embed call and a concrete retrieve call. -/
theorem alignment_invariant_preserved_witness :
    aligned emptyState ∧
    ((aligned (embed_texts encZero (.list ["a"]) emptyState "T").2 ∧
      (∃ newDocs,
        (embed_texts encZero (.list ["a"]) emptyState "T").2.documents =
          emptyState.documents ++ newDocs) ∧
      (∃ newVecs,
        (embed_texts encZero (.list ["a"]) emptyState "T").2.index.vecs =
          emptyState.index.vecs ++ newVecs) ∧
      (∀ i, i < emptyState.documents.length →
        (embed_texts encZero (.list ["a"]) emptyState "T").2.documents[i]? =
          emptyState.documents[i]?) ∧
      (∀ i, i < emptyState.index.vecs.length →
        (embed_texts encZero (.list ["a"]) emptyState "T").2.index.vecs[i]? =
          emptyState.index.vecs[i]?)) ∧
     (retrieve_context encQ "q" emptyState 1).2 = emptyState) :=
  ⟨by decide,
   alignment_invariant_preserved encZero encQ (.list ["a"]) "T" "q" 1
     emptyState (by decide)⟩

/-- Witness for C3, covering both failure modes: a model that raises leaves
the state untouched, and so does a model producing vectors of the wrong
dimension (1 instead of 384). -/
theorem embed_texts_atomic_on_failure_witness :
    ((∃ t ∈ (Texts.list ["a"]).toList.map (tagText "T"), encFail t = none) ∨
     ∃ embs,
       encodeBatch encFail ((Texts.list ["a"]).toList.map (tagText "T")) =
         some embs ∧
       ¬ ∀ v ∈ embs, v.length = EMBEDDING_DIM) ∧
    embed_texts encFail (.list ["a"]) emptyState "T" = (none, emptyState) ∧
    embed_texts encShort (.list ["a"]) emptyState "T" = (none, emptyState) :=
  ⟨Or.inl (by decide),
   embed_texts_atomic_on_failure encFail (.list ["a"]) "T" emptyState
     (Or.inl (by decide)),
   embed_texts_atomic_on_failure encShort (.list ["a"]) "T" emptyState
     (Or.inr ⟨[[1]], by decide, by decide⟩)⟩

/-- Witness for C4: the empty store yields the sentinel unchanged-state
result even under a model that fails on every input, so the model is not
consulted. -/
theorem retrieve_context_empty_store_witness :
    emptyState.index.ntotal = 0 ∧
    retrieve_context encFail "query" emptyState 3 =
      (some SENTINEL, emptyState) :=
  ⟨by decide,
   retrieve_context_empty_store emptyState (by decide) encFail "query" 3⟩

/-- Witness for C5, the tie-break scenario: positions 1 and 2 hold identical
vectors at distance 0 from the query, position 0 is farther; searching for
2 of 3 stored vectors returns distinct in-range indices in nearest-first
order with the lower index winning the tie. -/
theorem search_topk_spec_witness :
    2 ≤ tieStore.ntotal ∧
    ((tieStore.search [0] 2).length = 2 ∧
     (tieStore.search [0] 2).Nodup ∧
     (∀ i ∈ tieStore.search [0] 2, i < tieStore.ntotal) ∧
     (tieStore.search [0] 2).Pairwise (fun i j =>
       distOf tieStore [0] i < distOf tieStore [0] j ∨
       (distOf tieStore [0] i = distOf tieStore [0] j ∧ i < j))) :=
  ⟨by decide, search_topk_spec tieStore [0] 2 (by decide)⟩

/-- Witness for C6: asking for 5 neighbours of a 3-vector store returns all
three stored indices, nearest first. -/
theorem search_k_exceeds_count_witness :
    0 < tieStore.ntotal ∧ tieStore.ntotal < 5 ∧
    ((tieStore.search [0] 5).length = tieStore.ntotal ∧
     (∀ i, i ∈ tieStore.search [0] 5 ↔ i < tieStore.ntotal) ∧
     (tieStore.search [0] 5).Pairwise (fun i j =>
       distOf tieStore [0] i < distOf tieStore [0] j ∨
       (distOf tieStore [0] i = distOf tieStore [0] j ∧ i < j))) :=
  ⟨by decide, by decide,
   search_k_exceeds_count tieStore [0] 5 (by decide) (by decide)⟩

/-- Witness for C8: on a deliberately misaligned state (two vectors, empty
registry) retrieval returns normally — both search indices fail to resolve
and are skipped, leaving the empty joined string and the state
untouched. -/
theorem retrieve_context_nonempty_defensive_witness :
    misalignedState.index.ntotal ≠ 0 ∧
    encQ "pay" = some [0] ∧
    retrieve_context encQ "pay" misalignedState 2 =
      (some (String.intercalate "\n"
        ((misalignedState.index.search [0] 2).filterMap
          (fun i => misalignedState.documents[i]?))), misalignedState) :=
  ⟨by decide, rfl,
   retrieve_context_nonempty_defensive encQ "pay" misalignedState 2 [0]
     (by decide) rfl⟩

/-- Witness for C9: embedding `["x"]` without a tag argument produces the
registry entry `"[GENERAL] x"`. -/
theorem embed_texts_default_tag_general_witness :
    embed_texts encZero (.list ["x"]) emptyState =
      (some [vZero], ⟨⟨[vZero]⟩, ["[GENERAL] x"]⟩) ∧
    (embed_texts encZero (.list ["x"]) emptyState =
       embed_texts encZero (.list ["x"]) emptyState "GENERAL" ∧
     (⟨⟨[vZero]⟩, ["[GENERAL] x"]⟩ : RAGState ℤ).documents =
       emptyState.documents ++
         (Texts.list ["x"]).toList.map (fun t => "[GENERAL] " ++ t)) :=
  ⟨by decide,
   embed_texts_default_tag_general encZero (.list ["x"]) emptyState [vZero]
     ⟨⟨[vZero]⟩, ["[GENERAL] x"]⟩ (by decide)⟩

end RAG
